import Mathlib

/-!
# Verification of the radish-lang front end

Shallow embedding of the repository's scanner (`src/scanner.rs`), parser
(`src/parser.rs`) and runtime value semantics (`src/common/value.rs`),
together with theorems settling the frozen claims about them.

Modelling conventions:
* Rust strings are modelled as `List Char` (Unicode code points).  The
  scanner's cursor (`Scanner.current` / `Scanner.previous`) is a *byte*
  offset into the UTF-8 encoding of the source, so positions are advanced
  by `utf8Len` (the number of UTF-8 bytes of a code point), exactly as
  `Scanner::advance` does with `is_char_boundary`.
* `Rc<Source>` identity is not modelled: every span produced during one
  scan/parse refers to the same source, and no claim depends on the
  identity field of `Span`.
* Console printing (`println!`) returns no data and is dropped; the
  functions that perform it (`Parser::consume`, `Parser::advance`) keep
  their control flow unchanged.
-/

/-- Number of bytes of a code point in UTF-8; this is the distance
`Scanner::advance` moves `current` when it consumes that code point
(it walks forward to the next `is_char_boundary`). -/
def utf8Len (c : Char) : Nat :=
  if c.toNat < 0x80 then 1
  else if c.toNat < 0x800 then 2
  else if c.toNat < 0x10000 then 3
  else 4

/-- Total UTF-8 byte length of a list of code points. -/
def utf8Bytes (cs : List Char) : Nat := (cs.map utf8Len).sum

/-- `is_whitespace` from `src/scanner.rs`: the fixed allow-list of
whitespace code points (note: it does not include `\n`). -/
def isWhitespace (c : Char) : Bool :=
  c = '\u0009' || c = '\u000B' || c = '\u000C' || c = '\u000D' ||
  c = ' ' || c = '\u0085' || c = '\u200E' || c = '\u200F' ||
  c = '\u2028' || c = '\u2029'

/-- `is_alpha` from `src/scanner.rs`: all bytes of the lexeme are in
`a..z`, `A..Z` or `_`.  For a single code point this holds exactly for
the ASCII letters and underscore (a multi-byte code point always has a
byte `≥ 0x80`). -/
def isAlpha (c : Char) : Bool :=
  ('a' ≤ c && c ≤ 'z') || ('A' ≤ c && c ≤ 'Z') || c = '_'

/-- `is_digit` from `src/scanner.rs`: the first byte of the lexeme is an
ASCII digit.  For a single code point this holds exactly for `0..9`
(a non-ASCII code point's first UTF-8 byte is `≥ 0xC2`). -/
def isDigit (c : Char) : Bool :=
  '0' ≤ c && c ≤ '9'

/-- `TokenType` from `src/token.rs` (the variants used by scanner and
parser; the spec's §3 lists exactly this set). -/
inductive TokenType where
  | Plus | Minus | Star | Slash | LeftParen | RightParen
  | Number | Ident | True | False | Error | Eof
deriving DecidableEq, Repr

/-- `Span` over byte offsets into the source.  Modelled from the spec:
`span.rs` is not under `src/`; per §3 a Span is a start/end pair of
indices plus a shared `source` reference (the latter is not modelled,
see the header).  The Rust field `end` is called `stop` here because
`end` is a Lean keyword. -/
structure Span where
  start : Nat
  stop : Nat
deriving DecidableEq, Repr

/-- `Token` from `src/token.rs` (modelled from the spec §3: a classified
lexeme with its literal text and Span; for `Error` tokens the scanner
stores the diagnostic message in `value`, as `make_error_token` shows). -/
structure Token where
  tokenType : TokenType
  value : List Char
  span : Span
deriving DecidableEq, Repr

/-- The mutable scanner state: `rest` is the not-yet-consumed suffix of
the source's code points, `pos` is `Scanner.current` (a byte offset).
`Scanner.previous` is reset to `current` by `skip_whitespace` at the
start of every `scan_token` call, so it is threaded per token below
rather than stored. -/
structure ScanState where
  rest : List Char
  pos : Nat
deriving DecidableEq, Repr

/-- `Scanner::skip_whitespace`: consume code points while the next one
is in the whitespace allow-list. -/
def skipWhitespace : List Char → Nat → ScanState
  | [], p => ⟨[], p⟩
  | c :: r, p =>
    if isWhitespace c then skipWhitespace r (p + utf8Len c) else ⟨c :: r, p⟩

/-- The maximal-munch loops of `Scanner::number` / `Scanner::identifier`:
consume code points while `f` holds, returning the consumed prefix, the
rest and the advanced byte position. -/
def munchWhile (f : Char → Bool) : List Char → Nat → List Char × List Char × Nat
  | [], p => ([], [], p)
  | c :: r, p =>
    if f c then
      let m := munchWhile f r (p + utf8Len c)
      (c :: m.1, m.2.1, m.2.2)
    else ([], c :: r, p)

/-- `Scanner::identifier_type`: the lexeme is matched verbatim against
the keyword set. -/
def identifierType (lex : List Char) : TokenType :=
  if lex = "true".toList then .True
  else if lex = "false".toList then .False
  else .Ident

/-- The classification step of `Scanner::scan_token`, applied to the
state right after `skip_whitespace`: consume one code point and
classify it.  `prev` below is `Scanner.previous`, which
`skip_whitespace` has just set to `current`. -/
def scanAfterWs (s1 : ScanState) : Token × ScanState :=
  let prev := s1.pos
  match s1.rest with
  | [] => (⟨.Eof, [], ⟨prev, prev⟩⟩, ⟨[], prev⟩)
  | c :: r =>
    let p1 := prev + utf8Len c
    if c = '+' then (⟨.Plus, [c], ⟨prev, p1⟩⟩, ⟨r, p1⟩)
    else if c = '-' then (⟨.Minus, [c], ⟨prev, p1⟩⟩, ⟨r, p1⟩)
    else if c = '/' then (⟨.Slash, [c], ⟨prev, p1⟩⟩, ⟨r, p1⟩)
    else if c = '*' then (⟨.Star, [c], ⟨prev, p1⟩⟩, ⟨r, p1⟩)
    else if c = '(' then (⟨.LeftParen, [c], ⟨prev, p1⟩⟩, ⟨r, p1⟩)
    else if c = ')' then (⟨.RightParen, [c], ⟨prev, p1⟩⟩, ⟨r, p1⟩)
    else if isAlpha c then
      let m := munchWhile isAlpha r p1
      let lex := c :: m.1
      (⟨identifierType lex, lex, ⟨prev, m.2.2⟩⟩, ⟨m.2.1, m.2.2⟩)
    else if isDigit c then
      let m := munchWhile isDigit r p1
      let lex := c :: m.1
      (⟨.Number, lex, ⟨prev, m.2.2⟩⟩, ⟨m.2.1, m.2.2⟩)
    else
      (⟨.Error, "Unexpected character: '".toList ++ [c] ++ ['\''], ⟨prev, p1⟩⟩,
        ⟨r, p1⟩)

/-- `Scanner::scan_token`: skip whitespace, then consume and classify
the next code point. -/
def scanToken (s : ScanState) : Token × ScanState :=
  scanAfterWs (skipWhitespace s.rest s.pos)

/-- The loop body of `Parser::advance`: rescan until the scanner returns
a non-`Error` token (the error tokens are only printed and dropped).
The Rust loop has no fuel; `advanceGo` is indexed by fuel for structural
recursion, and `advanceLoop` below supplies `rest.length + 1`, which is
always sufficient (`advanceGo_no_error`), because every `Error` token
consumes at least the offending code point. -/
def advanceGo : Nat → ScanState → Token × ScanState
  | 0, s => scanToken s
  | fuel + 1, s =>
    let ts := scanToken s
    if ts.1.tokenType = .Error then advanceGo fuel ts.2 else ts

/-- `Parser::advance` without the dropped `println!` of the skipped
`Error` tokens.  (`Parser.previous` is assigned here in the Rust code
but never read anywhere in `parser.rs`, so it is not stored.) -/
def advanceLoop (s : ScanState) : Token × ScanState :=
  advanceGo (s.rest.length + 1) s

/-- `Literal` from the AST module.  Modelled from the spec: the `ast.rs`
under `src/` is an earlier revision that `parser.rs` no longer matches
(it lacks `Bool`, `UnaryExpr`, `ParenExpr`); the variants here are the
ones `parser.rs` constructs, which are exactly the spec's §3 set.
`f64` payloads use `F64` below. -/
inductive F64 where
  | finite (q : ℚ)
  | inf
  | neginf
  | nan
deriving DecidableEq, Repr

inductive Literal where
  | Number (n : F64)
  | Bool (b : Bool)
deriving DecidableEq, Repr

/-- `Op` from the AST module (spec §3): unary minus reuses `Subtract`. -/
inductive Op where
  | Add | Subtract | Multiply | Divide
deriving DecidableEq, Repr

/-- `ASTNode` as constructed by `parser.rs` (spec §3).  The Rust code
boxes `BinaryExpr { left, op, right }`, `UnaryExpr { op, arg }` and
`ParenExpr { expr }` payload structs; their fields are inlined here. -/
inductive ASTNode where
  | Literal (lit : Literal) (span : Span)
  | BinaryExpr (left : ASTNode) (op : Op) (right : ASTNode) (span : Span)
  | UnaryExpr (op : Op) (arg : ASTNode) (span : Span)
  | ParenExpr (expr : ASTNode) (span : Span)
deriving DecidableEq, Repr

/-- `ASTNode::position`: the span carried by the node. -/
def ASTNode.position : ASTNode → Span
  | .Literal _ sp => sp
  | .BinaryExpr _ _ _ sp => sp
  | .UnaryExpr _ _ sp => sp
  | .ParenExpr _ sp => sp

/-- `AST` (spec §3): an ordered sequence of expression nodes. -/
structure AST where
  items : List ASTNode
deriving DecidableEq, Repr

/-- `ParserError` from `src/parser.rs` (a message string).  The extra
`fuelExhausted` constructor is an artifact of the fuel-indexed embedding
of the recursive-descent functions; `parse` passes fuel that is never
exhausted on the inputs appearing in the theorems below, and every
`.ok` result is a faithful run of the Rust code. -/
inductive ParserError where
  | msg (m : List Char)
  | fuelExhausted
deriving DecidableEq, Repr

/-- The parser state: the scanner plus the single token of lookahead.
In the Rust code `current` is `Option<Token>` and is `None` only before
the initial `advance()` in `parse()`; every later read unwraps it, so
the embedding stores the token directly and performs the initial
advance in `parse`. -/
structure PState where
  scan : ScanState
  current : Token
deriving DecidableEq, Repr

/-- `Parser::advance` acting on the parser state. -/
def pAdvance (s : PState) : PState :=
  let ts := advanceLoop s.scan
  ⟨ts.2, ts.1⟩

/-- `Parser::consume`: advance past `tokenType` if it is current;
otherwise only `println!(errMsg)` — which returns no data — and leave
the state unchanged (the defect documented in spec §7/§9). -/
def consume (tokenType : TokenType) (_errMsg : List Char) (s : PState) : PState :=
  if s.current.tokenType = tokenType then pAdvance s else s

/-- Modelled from the spec: `token.rs`'s `Display for TokenType` (used by
`format!` in `parse_factor`'s error arm) is not under `src/`; §4.3 only
requires the message to name the unexpected token, so each kind displays
as its lexeme or a kind name. -/
def TokenType.display : TokenType → List Char
  | .Plus => "+".toList
  | .Minus => "-".toList
  | .Star => "*".toList
  | .Slash => "/".toList
  | .LeftParen => "(".toList
  | .RightParen => ")".toList
  | .Number => "<number>".toList
  | .Ident => "<ident>".toList
  | .True => "true".toList
  | .False => "false".toList
  | .Error => "<error>".toList
  | .Eof => "<eof>".toList

/-- Decimal value of a digit list. -/
def digitsToNat (cs : List Char) : Nat :=
  cs.foldl (fun a c => 10 * a + (c.toNat - 48)) 0

/-- Model of Rust `str::parse::<f64>` restricted to the lexemes the
scanner stores in `Number` tokens: nonempty runs of ASCII digits, which
parse to their exact decimal value (rounding of huge literals to the
nearest double is not modelled; no claim involves one).  Any other
input is rejected; the parser never passes one. -/
def parseF64 (cs : List Char) : Option F64 :=
  if !cs.isEmpty && cs.all isDigit then some (.finite ((digitsToNat cs : ℚ)))
  else none

mutual

/-- `Parser::parse_sum` (entered through `expression`): parse a term,
then fold further `+`/`-` terms left-associatively in `sumLoop`. -/
def parseSum : Nat → PState → Except ParserError (ASTNode × PState)
  | 0, _ => .error .fuelExhausted
  | fuel + 1, s =>
    match parseTerm fuel s with
    | .error e => .error e
    | .ok (n, s1) => sumLoop fuel n s1

/-- The `loop` in `Parser::parse_sum`: while current is `+`/`-`, consume
it, parse the next term, and wrap `node` as the left operand of a new
`BinaryExpr` whose span is `[node.start, right.stop)`. -/
def sumLoop : Nat → ASTNode → PState → Except ParserError (ASTNode × PState)
  | 0, _, _ => .error .fuelExhausted
  | fuel + 1, node, s =>
    match s.current.tokenType with
    | .Plus =>
      let s1 := consume .Plus "Expect '+'".toList s
      match parseTerm fuel s1 with
      | .error e => .error e
      | .ok (r, s2) =>
        sumLoop fuel
          (.BinaryExpr node .Add r ⟨node.position.start, r.position.stop⟩) s2
    | .Minus =>
      let s1 := consume .Minus "Expect '-'".toList s
      match parseTerm fuel s1 with
      | .error e => .error e
      | .ok (r, s2) =>
        sumLoop fuel
          (.BinaryExpr node .Subtract r ⟨node.position.start, r.position.stop⟩) s2
    | _ => .ok (node, s)

/-- `Parser::parse_term`: parse a factor, then fold further `*`/`/`
factors left-associatively in `termLoop`. -/
def parseTerm : Nat → PState → Except ParserError (ASTNode × PState)
  | 0, _ => .error .fuelExhausted
  | fuel + 1, s =>
    match parseFactor fuel s with
    | .error e => .error e
    | .ok (n, s1) => termLoop fuel n s1

/-- The `loop` in `Parser::parse_term`. -/
def termLoop : Nat → ASTNode → PState → Except ParserError (ASTNode × PState)
  | 0, _, _ => .error .fuelExhausted
  | fuel + 1, node, s =>
    match s.current.tokenType with
    | .Star =>
      let s1 := consume .Star "Expect '*'".toList s
      match parseFactor fuel s1 with
      | .error e => .error e
      | .ok (r, s2) =>
        termLoop fuel
          (.BinaryExpr node .Multiply r ⟨node.position.start, r.position.stop⟩) s2
    | .Slash =>
      let s1 := consume .Slash "Expect '/'".toList s
      match parseFactor fuel s1 with
      | .error e => .error e
      | .ok (r, s2) =>
        termLoop fuel
          (.BinaryExpr node .Divide r ⟨node.position.start, r.position.stop⟩) s2
    | _ => .ok (node, s)

/-- `Parser::parse_factor`: number / boolean literals, parenthesized
sums, unary minus, and the fatal unexpected-token error arm. -/
def parseFactor : Nat → PState → Except ParserError (ASTNode × PState)
  | 0, _ => .error .fuelExhausted
  | fuel + 1, s =>
    match s.current.tokenType with
    | .Number =>
      let tok := s.current
      let span : Span := ⟨tok.span.start, tok.span.stop⟩
      match parseF64 tok.value with
      | none => .error (.msg "Cannot parse number".toList)
      | some v =>
        let node := ASTNode.Literal (.Number v) span
        .ok (node, consume .Number "Expect number literal".toList s)
    | .LeftParen =>
      let start := s.current.span.start
      let s1 := consume .LeftParen "Expect '('.".toList s
      match parseSum fuel s1 with
      | .error e => .error e
      | .ok (e, s2) =>
        let s3 := consume .RightParen
          "Expect ')' after grouping expression.".toList s2
        .ok (.ParenExpr e ⟨start, e.position.stop + 1⟩, s3)
    | .Minus =>
      let start := s.current.span.start
      let s1 := consume .Minus "Expect '-'.".toList s
      match parseFactor fuel s1 with
      | .error e => .error e
      | .ok (a, s2) => .ok (.UnaryExpr .Subtract a ⟨start, a.position.stop⟩, s2)
    | .True =>
      let tok := s.current
      let node := ASTNode.Literal (.Bool true) ⟨tok.span.start, tok.span.stop⟩
      .ok (node, consume .True "Expect boolean literal 'true'.".toList s)
    | .False =>
      let tok := s.current
      let node := ASTNode.Literal (.Bool false) ⟨tok.span.start, tok.span.stop⟩
      .ok (node, consume .False "Expect boolean literal 'false'.".toList s)
    | tt =>
      .error (.msg ("Error, unexpected token: '".toList ++ tt.display ++ "'.".toList))

end

/-- Fuel passed to the parser by `parse`; ample for every input length
(each recursive-descent call consumes input or immediately returns). -/
def parseFuel (src : List Char) : Nat := 4 * src.length + 8

/-- `Parser::parse`: perform the initial `advance`, parse one sum
(`expression`), and wrap it as the AST's single item. -/
def parse (src : List Char) : Except ParserError AST :=
  let ts := advanceLoop ⟨src, 0⟩
  match parseSum (parseFuel src) ⟨ts.2, ts.1⟩ with
  | .error e => .error e
  | .ok (n, _) => .ok ⟨[n]⟩

/-! ## Runtime values (`src/common/value.rs`)

`f64` is modelled by `F64`: exact rationals plus the special values
`inf`, `neginf`, `nan`.  Rounding of finite results and negative zero
are not modelled; no claim depends on them. -/

/-- IEEE-style negation on `F64`. -/
def fpNeg : F64 → F64
  | .finite p => .finite (-p)
  | .inf => .neginf
  | .neginf => .inf
  | .nan => .nan

/-- IEEE-style addition on `F64` (exact on finite operands). -/
def fpAdd : F64 → F64 → F64
  | .nan, _ | _, .nan => .nan
  | .finite p, .finite q => .finite (p + q)
  | .inf, .neginf | .neginf, .inf => .nan
  | .inf, _ | _, .inf => .inf
  | .neginf, _ | _, .neginf => .neginf

/-- IEEE-style subtraction on `F64`. -/
def fpSub (a b : F64) : F64 := fpAdd a (fpNeg b)

/-- IEEE-style multiplication on `F64` (exact on finite operands). -/
def fpMul : F64 → F64 → F64
  | .nan, _ | _, .nan => .nan
  | .finite p, .finite q => .finite (p * q)
  | .inf, .inf | .neginf, .neginf => .inf
  | .inf, .neginf | .neginf, .inf => .neginf
  | .inf, .finite q | .finite q, .inf =>
    if q = 0 then .nan else if 0 < q then .inf else .neginf
  | .neginf, .finite q | .finite q, .neginf =>
    if q = 0 then .nan else if 0 < q then .neginf else .inf

/-- IEEE-style division on `F64`: a nonzero finite number divided by
zero is a signed infinity, `0 / 0` is `nan` (negative zero is not
modelled, so the sign uses the mathematical sign of the operands). -/
def fpDiv : F64 → F64 → F64
  | .nan, _ | _, .nan => .nan
  | .finite p, .finite q =>
    if q = 0 then (if p = 0 then .nan else if 0 < p then .inf else .neginf)
    else .finite (p / q)
  | .finite _, .inf | .finite _, .neginf => .finite 0
  | .inf, .finite q => if 0 ≤ q then .inf else .neginf
  | .neginf, .finite q => if 0 ≤ q then .neginf else .inf
  | .inf, .inf | .inf, .neginf | .neginf, .inf | .neginf, .neginf => .nan

/-- `Value` from `src/common/value.rs`.  The `Rc<RefCell<String>>` and
`Rc<Function>` payloads are shared cells, modelled as indices into an
explicit heap (`StrHeap` for strings) so that the aliasing-visible
mutation performed by `+` is observable. -/
inductive Value where
  | Number (n : F64)
  | Boolean (b : Bool)
  | String (ref : Nat)
  | Function (ref : Nat)
  | Nil
deriving DecidableEq, Repr

/-- The store of `Rc<RefCell<String>>` buffers: cell `i` holds the text
of every `Value.String i`. -/
abbrev StrHeap := List (List Char)

/-- Dereference a string cell (the text all aliases of it observe). -/
def readStr (h : StrHeap) (i : Nat) : List Char := h.getD i []

/-- `impl Add for Value` (`value.rs` lines 69–81): two `Number`s add;
two `String`s append the right buffer's text onto the *left* buffer in
place (`a.borrow_mut().push_str(&b.borrow())`) and return a Value
aliasing that same mutated cell; every other pairing hits
`panic!("Operands must be numbers")`, modelled as `.error`.  When both
operands are the *same* cell the overlapping `borrow_mut`/`borrow`
makes the `RefCell` abort, modelled as a distinct error. -/
def vadd (a b : Value) (h : StrHeap) : Except (List Char) (Value × StrHeap) :=
  match a, b with
  | .Number x, .Number y => .ok (.Number (fpAdd x y), h)
  | .String i, .String j =>
    if i = j then .error "already mutably borrowed".toList
    else .ok (.String i, h.set i (readStr h i ++ readStr h j))
  | _, _ => .error "Operands must be numbers".toList

/-- `impl Sub for Value`: only `(Number, Number)`, else the panic arm. -/
def vsub : Value → Value → Except (List Char) Value
  | .Number x, .Number y => .ok (.Number (fpSub x y))
  | _, _ => .error "Operands must be numbers".toList

/-- `impl Mul for Value`: only `(Number, Number)`, else the panic arm. -/
def vmul : Value → Value → Except (List Char) Value
  | .Number x, .Number y => .ok (.Number (fpMul x y))
  | _, _ => .error "Operands must be numbers".toList

/-- `impl Div for Value`: only `(Number, Number)` — including a zero
divisor, which flows into `a / b` and follows float semantics — else
the panic arm. -/
def vdiv : Value → Value → Except (List Char) Value
  | .Number x, .Number y => .ok (.Number (fpDiv x y))
  | _, _ => .error "Operands must be numbers".toList

/-- `impl Neg for Value`: only `Number`, else the panic arm. -/
def vneg : Value → Except (List Char) Value
  | .Number x => .ok (.Number (fpNeg x))
  | _ => .error "Operands must be numbers".toList

/-- Both operands are `Number` (the domain on which `-`, `*`, `/` are
total). -/
def bothNumbers : Value → Value → Bool
  | .Number _, .Number _ => true
  | _, _ => false

/-- The operand is a `Number` (the domain on which unary `-` is total). -/
def isNumber : Value → Bool
  | .Number _ => true
  | _ => false

/-! ## Predicates on parser output -/

/-- Erase every span in a node (to compare AST *shapes*). -/
def eraseSpans : ASTNode → ASTNode
  | .Literal l _ => .Literal l ⟨0, 0⟩
  | .BinaryExpr l op r _ => .BinaryExpr (eraseSpans l) op (eraseSpans r) ⟨0, 0⟩
  | .UnaryExpr op a _ => .UnaryExpr op (eraseSpans a) ⟨0, 0⟩
  | .ParenExpr e _ => .ParenExpr (eraseSpans e) ⟨0, 0⟩

/-- Erase every span in an AST. -/
def eraseAST (t : AST) : AST := ⟨t.items.map eraseSpans⟩

mutual

/-- The node has the shape of a `factor` production: a literal, a
parenthesized sum, or a unary minus applied to a factor — never a bare
`BinaryExpr`. -/
def factorShape : ASTNode → Bool
  | .Literal _ _ => true
  | .ParenExpr e _ => sumShape e
  | .UnaryExpr _ a _ => factorShape a
  | .BinaryExpr _ _ _ _ => false

/-- The node has the shape of a `term` production: a left-leaning chain
of `*`/`/` over factors (each right operand is a factor, so `*`/`/`
chains group left-associatively). -/
def termShape : ASTNode → Bool
  | .BinaryExpr l op r _ =>
    (op = .Multiply || op = .Divide) && termShape l && factorShape r
  | .Literal _ _ => true
  | .ParenExpr e _ => sumShape e
  | .UnaryExpr _ a _ => factorShape a

/-- The node has the shape of a `sum` production: a left-leaning chain
of `+`/`-` over terms (each right operand is a term, so `+`/`-` chains
group left-associatively, and below them `*`/`/` chains do too). -/
def sumShape : ASTNode → Bool
  | .BinaryExpr l op r _ =>
    if op = .Add || op = .Subtract then sumShape l && termShape r
    else (op = .Multiply || op = .Divide) && termShape l && factorShape r
  | .Literal _ _ => true
  | .ParenExpr e _ => sumShape e
  | .UnaryExpr _ a _ => factorShape a

end

/-- Every composite span in the node is the computed one of spec §3 as
the parser builds it: binary spans are `[left.start, right.stop)`,
unary spans end at the operand's end, paren spans end at
`inner.stop + 1`. -/
def spansOk : ASTNode → Bool
  | .Literal _ _ => true
  | .BinaryExpr l _ r sp =>
    (sp.start == l.position.start) && (sp.stop == r.position.stop) &&
    spansOk l && spansOk r
  | .UnaryExpr _ a sp => (sp.stop == a.position.stop) && spansOk a
  | .ParenExpr e sp => (sp.stop == e.position.stop + 1) && spansOk e

/-- Every `BinaryExpr` in the node has span `[left.start, right.stop)`. -/
def binSpansOk : ASTNode → Bool
  | .Literal _ _ => true
  | .BinaryExpr l _ r sp =>
    (sp.start == l.position.start) && (sp.stop == r.position.stop) &&
    binSpansOk l && binSpansOk r
  | .UnaryExpr _ a _ => binSpansOk a
  | .ParenExpr e _ => binSpansOk e

/-- Every `ParenExpr` in the node has span ending at `inner.stop + 1`. -/
def parenSpansOk : ASTNode → Bool
  | .Literal _ _ => true
  | .BinaryExpr l _ r _ => parenSpansOk l && parenSpansOk r
  | .UnaryExpr _ a _ => parenSpansOk a
  | .ParenExpr e sp => (sp.stop == e.position.stop + 1) && parenSpansOk e

/-- Every `UnaryExpr` in the node negates a factor-shaped operand
(never a bare `BinaryExpr`). -/
def unaryFactorOk : ASTNode → Bool
  | .Literal _ _ => true
  | .BinaryExpr l _ r _ => unaryFactorOk l && unaryFactorOk r
  | .UnaryExpr _ a _ => factorShape a && unaryFactorOk a
  | .ParenExpr e _ => unaryFactorOk e

/-! ## Scanner lemmas -/

theorem utf8Bytes_nil : utf8Bytes [] = 0 := rfl

theorem utf8Bytes_cons (c : Char) (cs : List Char) :
    utf8Bytes (c :: cs) = utf8Len c + utf8Bytes cs := by
  simp [utf8Bytes]

theorem utf8Bytes_append (a b : List Char) :
    utf8Bytes (a ++ b) = utf8Bytes a + utf8Bytes b := by
  induction a with
  | nil => simp [utf8Bytes]
  | cons c a ih => simp [utf8Bytes_cons, ih]; ring

/-- `skip_whitespace` consumes a whitespace-only prefix and advances the
byte position by its UTF-8 length. -/
theorem skipWhitespace_spec (r : List Char) (p : Nat) :
    ∃ ws, r = ws ++ (skipWhitespace r p).rest ∧
      (∀ c ∈ ws, isWhitespace c = true) ∧
      (skipWhitespace r p).pos = p + utf8Bytes ws := by
  induction r generalizing p with
  | nil => exact ⟨[], by simp [skipWhitespace, utf8Bytes]⟩
  | cons c r ih =>
    by_cases hw : isWhitespace c
    · obtain ⟨ws, h1, h2, h3⟩ := ih (p + utf8Len c)
      refine ⟨c :: ws, ?_, ?_, ?_⟩
      · simp [skipWhitespace, hw]; exact h1
      · intro d hd
        rcases List.mem_cons.mp hd with h | h
        · exact h ▸ hw
        · exact h2 _ h
      · simp [skipWhitespace, hw, h3, utf8Bytes_cons]; ring
    · exact ⟨[], by simp [skipWhitespace, hw, utf8Bytes]⟩

/-- The maximal-munch loop consumes a prefix and advances the byte
position by its UTF-8 length. -/
theorem munchWhile_spec (f : Char → Bool) (r : List Char) (p : Nat) :
    r = (munchWhile f r p).1 ++ (munchWhile f r p).2.1 ∧
      (munchWhile f r p).2.2 = p + utf8Bytes (munchWhile f r p).1 := by
  induction r generalizing p with
  | nil => simp [munchWhile, utf8Bytes]
  | cons c r ih =>
    by_cases hf : f c
    · obtain ⟨h1, h2⟩ := ih (p + utf8Len c)
      constructor
      · simpa [munchWhile, hf] using h1
      · simp [munchWhile, hf, h2, utf8Bytes_cons]; ring
    · simp [munchWhile, hf, utf8Bytes]

/-- The classification step consumes the lexeme's code points and
advances the byte position — and both span endpoints — by their UTF-8
byte length. -/
theorem scanAfterWs_spec (s1 : ScanState) :
    ∃ lex, s1.rest = lex ++ (scanAfterWs s1).2.rest ∧
      (scanAfterWs s1).1.span.start = s1.pos ∧
      (scanAfterWs s1).1.span.stop = s1.pos + utf8Bytes lex ∧
      (scanAfterWs s1).2.pos = s1.pos + utf8Bytes lex := by
  obtain ⟨rest, p⟩ := s1
  cases rest with
  | nil => exact ⟨[], by simp [scanAfterWs, utf8Bytes]⟩
  | cons c r =>
    simp only [scanAfterWs]
    split_ifs with h1 h2 h3 h4 h5 h6 h7 h8
    · exact ⟨[c], by simp [utf8Bytes_cons, utf8Bytes]⟩
    · exact ⟨[c], by simp [utf8Bytes_cons, utf8Bytes]⟩
    · exact ⟨[c], by simp [utf8Bytes_cons, utf8Bytes]⟩
    · exact ⟨[c], by simp [utf8Bytes_cons, utf8Bytes]⟩
    · exact ⟨[c], by simp [utf8Bytes_cons, utf8Bytes]⟩
    · exact ⟨[c], by simp [utf8Bytes_cons, utf8Bytes]⟩
    · obtain ⟨hm1, hm2⟩ := munchWhile_spec isAlpha r (p + utf8Len c)
      refine ⟨c :: (munchWhile isAlpha r (p + utf8Len c)).1, ?_, rfl, ?_, ?_⟩
      · simpa using hm1
      · simp [utf8Bytes_cons, hm2, Nat.add_assoc]
      · simp [utf8Bytes_cons, hm2, Nat.add_assoc]
    · obtain ⟨hm1, hm2⟩ := munchWhile_spec isDigit r (p + utf8Len c)
      refine ⟨c :: (munchWhile isDigit r (p + utf8Len c)).1, ?_, rfl, ?_, ?_⟩
      · simpa using hm1
      · simp [utf8Bytes_cons, hm2, Nat.add_assoc]
      · simp [utf8Bytes_cons, hm2, Nat.add_assoc]
    · exact ⟨[c], by simp [utf8Bytes_cons, utf8Bytes]⟩

/-- `scan_token` splits off a whitespace prefix and a lexeme, and every
position — the span's start and end and the scanner's cursor — advances
by the UTF-8 *byte* length of the consumed code points (this is the
behavior the scanner actually has; it is not grapheme-cluster
indexed). -/
theorem scanToken_spec (s : ScanState) :
    ∃ ws lex, s.rest = ws ++ lex ++ (scanToken s).2.rest ∧
      (∀ c ∈ ws, isWhitespace c = true) ∧
      (scanToken s).1.span.start = s.pos + utf8Bytes ws ∧
      (scanToken s).1.span.stop = (scanToken s).1.span.start + utf8Bytes lex ∧
      (scanToken s).2.pos = (scanToken s).1.span.stop := by
  obtain ⟨ws, hw1, hw2, hw3⟩ := skipWhitespace_spec s.rest s.pos
  obtain ⟨lex, hl1, hl2, hl3, hl4⟩ := scanAfterWs_spec (skipWhitespace s.rest s.pos)
  refine ⟨ws, lex, ?_, hw2, ?_, ?_, ?_⟩ <;> simp only [scanToken]
  · conv_lhs => rw [hw1]
    rw [hl1, List.append_assoc]
  · rw [hl2, hw3]
  · rw [hl3, hl2]
  · rw [hl4, hl3]

theorem identifierType_ne_error (lex : List Char) :
    identifierType lex ≠ .Error := by
  unfold identifierType
  split_ifs <;> simp

/-- Whenever the classification step has input left, it consumes at
least one code point, so the remaining input strictly shrinks. -/
theorem scanAfterWs_shrink (s1 : ScanState) (hne : s1.rest ≠ []) :
    (scanAfterWs s1).2.rest.length < s1.rest.length := by
  obtain ⟨rest, p⟩ := s1
  cases rest with
  | nil => simp at hne
  | cons c r =>
    simp only [scanAfterWs]
    split_ifs with h1 h2 h3 h4 h5 h6 h7 h8
    · exact Nat.lt_succ_self _
    · exact Nat.lt_succ_self _
    · exact Nat.lt_succ_self _
    · exact Nat.lt_succ_self _
    · exact Nat.lt_succ_self _
    · exact Nat.lt_succ_self _
    · obtain ⟨hm1, -⟩ := munchWhile_spec isAlpha r (p + utf8Len c)
      have hlen := congrArg List.length hm1
      rw [List.length_append] at hlen
      refine Nat.lt_succ_of_le ?_
      show (munchWhile isAlpha r (p + utf8Len c)).2.1.length ≤ r.length
      omega
    · obtain ⟨hm1, -⟩ := munchWhile_spec isDigit r (p + utf8Len c)
      have hlen := congrArg List.length hm1
      rw [List.length_append] at hlen
      refine Nat.lt_succ_of_le ?_
      show (munchWhile isDigit r (p + utf8Len c)).2.1.length ≤ r.length
      omega
    · exact Nat.lt_succ_self _

theorem skipWhitespace_rest_le (r : List Char) (p : Nat) :
    (skipWhitespace r p).rest.length ≤ r.length := by
  obtain ⟨ws, h1, -, -⟩ := skipWhitespace_spec r p
  conv_rhs => rw [h1]
  simp

/-- If `scan_token` produced an `Error` token, the remaining input
strictly shrank (the offending code point was consumed). -/
theorem scanToken_error_shrink (s : ScanState)
    (h : (scanToken s).1.tokenType = .Error) :
    (scanToken s).2.rest.length < s.rest.length := by
  have hne : (skipWhitespace s.rest s.pos).rest ≠ [] := by
    intro hnil
    have heof : (scanToken s).1.tokenType = .Eof := by
      simp [scanToken, scanAfterWs, hnil]
    rw [heof] at h
    exact absurd h (by simp)
  have hlt := scanAfterWs_shrink (skipWhitespace s.rest s.pos) hne
  have hle := skipWhitespace_rest_le s.rest s.pos
  calc (scanToken s).2.rest.length
      < (skipWhitespace s.rest s.pos).rest.length := hlt
    _ ≤ s.rest.length := hle

/-- With fuel exceeding the remaining input length, the rescan loop of
`Parser::advance` never returns an `Error` token. -/
theorem advanceGo_no_error :
    ∀ fuel (s : ScanState), s.rest.length < fuel →
      (advanceGo fuel s).1.tokenType ≠ .Error := by
  intro fuel
  induction fuel with
  | zero => intro s hs; omega
  | succ f ih =>
    intro s hs
    simp only [advanceGo]
    split_ifs with htype
    · exact ih _ (by
        have := scanToken_error_shrink s htype
        omega)
    · exact htype

/-- `Parser::advance` never installs an `Error` token as `current`:
every `Error` token the scanner produces is silently discarded by the
rescan loop. -/
theorem advanceLoop_no_error (s : ScanState) :
    (advanceLoop s).1.tokenType ≠ .Error :=
  advanceGo_no_error _ s (Nat.lt_succ_self _)

/-! ## Parser invariant -/

theorem factorShape_termShape {n : ASTNode} (h : factorShape n = true) :
    termShape n = true := by
  cases n with
  | Literal l sp => simp [termShape]
  | BinaryExpr l op r sp => simp [factorShape] at h
  | UnaryExpr op a sp => simp_all [factorShape, termShape]
  | ParenExpr e sp => simp_all [factorShape, termShape]

theorem termShape_sumShape {n : ASTNode} (h : termShape n = true) :
    sumShape n = true := by
  cases n with
  | Literal l sp => simp [sumShape]
  | BinaryExpr l op r sp => cases op <;> simp_all [termShape, sumShape]
  | UnaryExpr op a sp => simp_all [termShape, sumShape]
  | ParenExpr e sp => simp_all [termShape, sumShape]

/-- The master parser invariant, for every fuel value: every node a
parser function returns is shape-correct for its grammar level (so all
operator chains lean left and unary minus wraps factors), every
composite span is the computed one of spec §3, and the node's span
starts where the parse of the node started. -/
theorem parserInv (fuel : Nat) :
    (∀ s n s', parseFactor fuel s = .ok (n, s') →
      factorShape n = true ∧ spansOk n = true ∧
        n.position.start = s.current.span.start) ∧
    (∀ acc s n s', termShape acc = true → spansOk acc = true →
      termLoop fuel acc s = .ok (n, s') →
      termShape n = true ∧ spansOk n = true ∧
        n.position.start = acc.position.start) ∧
    (∀ s n s', parseTerm fuel s = .ok (n, s') →
      termShape n = true ∧ spansOk n = true ∧
        n.position.start = s.current.span.start) ∧
    (∀ acc s n s', sumShape acc = true → spansOk acc = true →
      sumLoop fuel acc s = .ok (n, s') →
      sumShape n = true ∧ spansOk n = true ∧
        n.position.start = acc.position.start) ∧
    (∀ s n s', parseSum fuel s = .ok (n, s') →
      sumShape n = true ∧ spansOk n = true ∧
        n.position.start = s.current.span.start) := by
  induction fuel with
  | zero =>
    refine ⟨?_, ?_, ?_, ?_, ?_⟩
    · intro s n s' h; simp [parseFactor] at h
    · intro acc s n s' _ _ h; simp [termLoop] at h
    · intro s n s' h; simp [parseTerm] at h
    · intro acc s n s' _ _ h; simp [sumLoop] at h
    · intro s n s' h; simp [parseSum] at h
  | succ f ih =>
    obtain ⟨ihF, ihTL, ihT, ihSL, ihS⟩ := ih
    refine ⟨?_, ?_, ?_, ?_, ?_⟩
    · -- parseFactor
      intro s n s' h
      simp only [parseFactor] at h
      cases htok : s.current.tokenType with
      | Number =>
        simp only [htok] at h
        cases hpf : parseF64 s.current.value with
        | none => rw [hpf] at h; simp at h
        | some v =>
          rw [hpf] at h
          simp only [Except.ok.injEq, Prod.mk.injEq] at h
          obtain ⟨hn, -⟩ := h
          subst hn
          exact ⟨rfl, rfl, by simp [ASTNode.position]⟩
      | LeftParen =>
        simp only [htok] at h
        cases hps : parseSum f (consume .LeftParen "Expect '('.".toList s) with
        | error e => rw [hps] at h; simp at h
        | ok v =>
          obtain ⟨e, s2⟩ := v
          rw [hps] at h
          simp only [Except.ok.injEq, Prod.mk.injEq] at h
          obtain ⟨hn, -⟩ := h
          subst hn
          obtain ⟨he1, he2, -⟩ := ihS _ _ _ hps
          refine ⟨by simpa [factorShape] using he1, ?_, by simp [ASTNode.position]⟩
          simp [spansOk, ASTNode.position, he2]
      | Minus =>
        simp only [htok] at h
        cases hpf : parseFactor f (consume .Minus "Expect '-'.".toList s) with
        | error e => rw [hpf] at h; simp at h
        | ok v =>
          obtain ⟨a, s2⟩ := v
          rw [hpf] at h
          simp only [Except.ok.injEq, Prod.mk.injEq] at h
          obtain ⟨hn, -⟩ := h
          subst hn
          obtain ⟨ha1, ha2, -⟩ := ihF _ _ _ hpf
          refine ⟨by simpa [factorShape] using ha1, ?_, by simp [ASTNode.position]⟩
          simp [spansOk, ASTNode.position, ha2]
      | True =>
        simp only [htok] at h
        simp only [Except.ok.injEq, Prod.mk.injEq] at h
        obtain ⟨hn, -⟩ := h
        subst hn
        exact ⟨rfl, rfl, by simp [ASTNode.position]⟩
      | False =>
        simp only [htok] at h
        simp only [Except.ok.injEq, Prod.mk.injEq] at h
        obtain ⟨hn, -⟩ := h
        subst hn
        exact ⟨rfl, rfl, by simp [ASTNode.position]⟩
      | Plus => simp only [htok] at h; simp at h
      | Star => simp only [htok] at h; simp at h
      | Slash => simp only [htok] at h; simp at h
      | RightParen => simp only [htok] at h; simp at h
      | Ident => simp only [htok] at h; simp at h
      | Error => simp only [htok] at h; simp at h
      | Eof => simp only [htok] at h; simp at h
    · -- termLoop
      intro acc s n s' hT hS h
      simp only [termLoop] at h
      cases htok : s.current.tokenType with
      | Star =>
        simp only [htok] at h
        cases hpf : parseFactor f (consume .Star "Expect '*'".toList s) with
        | error e => rw [hpf] at h; simp at h
        | ok v =>
          obtain ⟨r, s2⟩ := v
          rw [hpf] at h
          obtain ⟨hr1, hr2, -⟩ := ihF _ _ _ hpf
          have hacc1 : termShape (ASTNode.BinaryExpr acc .Multiply r
              ⟨acc.position.start, r.position.stop⟩) = true := by
            simp [termShape, hT, hr1]
          have hacc2 : spansOk (ASTNode.BinaryExpr acc .Multiply r
              ⟨acc.position.start, r.position.stop⟩) = true := by
            simp [spansOk, ASTNode.position, hS, hr2]
          obtain ⟨h1, h2, h3⟩ := ihTL _ _ _ _ hacc1 hacc2 h
          exact ⟨h1, h2, by rw [h3]; simp [ASTNode.position]⟩
      | Slash =>
        simp only [htok] at h
        cases hpf : parseFactor f (consume .Slash "Expect '/'".toList s) with
        | error e => rw [hpf] at h; simp at h
        | ok v =>
          obtain ⟨r, s2⟩ := v
          rw [hpf] at h
          obtain ⟨hr1, hr2, -⟩ := ihF _ _ _ hpf
          have hacc1 : termShape (ASTNode.BinaryExpr acc .Divide r
              ⟨acc.position.start, r.position.stop⟩) = true := by
            simp [termShape, hT, hr1]
          have hacc2 : spansOk (ASTNode.BinaryExpr acc .Divide r
              ⟨acc.position.start, r.position.stop⟩) = true := by
            simp [spansOk, ASTNode.position, hS, hr2]
          obtain ⟨h1, h2, h3⟩ := ihTL _ _ _ _ hacc1 hacc2 h
          exact ⟨h1, h2, by rw [h3]; simp [ASTNode.position]⟩
      | Plus =>
        simp only [htok] at h
        simp only [Except.ok.injEq, Prod.mk.injEq] at h
        obtain ⟨hn, -⟩ := h; subst hn
        exact ⟨hT, hS, rfl⟩
      | Minus =>
        simp only [htok] at h
        simp only [Except.ok.injEq, Prod.mk.injEq] at h
        obtain ⟨hn, -⟩ := h; subst hn
        exact ⟨hT, hS, rfl⟩
      | LeftParen =>
        simp only [htok] at h
        simp only [Except.ok.injEq, Prod.mk.injEq] at h
        obtain ⟨hn, -⟩ := h; subst hn
        exact ⟨hT, hS, rfl⟩
      | RightParen =>
        simp only [htok] at h
        simp only [Except.ok.injEq, Prod.mk.injEq] at h
        obtain ⟨hn, -⟩ := h; subst hn
        exact ⟨hT, hS, rfl⟩
      | Number =>
        simp only [htok] at h
        simp only [Except.ok.injEq, Prod.mk.injEq] at h
        obtain ⟨hn, -⟩ := h; subst hn
        exact ⟨hT, hS, rfl⟩
      | Ident =>
        simp only [htok] at h
        simp only [Except.ok.injEq, Prod.mk.injEq] at h
        obtain ⟨hn, -⟩ := h; subst hn
        exact ⟨hT, hS, rfl⟩
      | True =>
        simp only [htok] at h
        simp only [Except.ok.injEq, Prod.mk.injEq] at h
        obtain ⟨hn, -⟩ := h; subst hn
        exact ⟨hT, hS, rfl⟩
      | False =>
        simp only [htok] at h
        simp only [Except.ok.injEq, Prod.mk.injEq] at h
        obtain ⟨hn, -⟩ := h; subst hn
        exact ⟨hT, hS, rfl⟩
      | Error =>
        simp only [htok] at h
        simp only [Except.ok.injEq, Prod.mk.injEq] at h
        obtain ⟨hn, -⟩ := h; subst hn
        exact ⟨hT, hS, rfl⟩
      | Eof =>
        simp only [htok] at h
        simp only [Except.ok.injEq, Prod.mk.injEq] at h
        obtain ⟨hn, -⟩ := h; subst hn
        exact ⟨hT, hS, rfl⟩
    · -- parseTerm
      intro s n s' h
      simp only [parseTerm] at h
      cases hpf : parseFactor f s with
      | error e => rw [hpf] at h; simp at h
      | ok v =>
        obtain ⟨n0, s1⟩ := v
        rw [hpf] at h
        obtain ⟨h1, h2, h3⟩ := ihF _ _ _ hpf
        obtain ⟨h4, h5, h6⟩ := ihTL _ _ _ _ (factorShape_termShape h1) h2 h
        exact ⟨h4, h5, by rw [h6, h3]⟩
    · -- sumLoop
      intro acc s n s' hT hS h
      simp only [sumLoop] at h
      cases htok : s.current.tokenType with
      | Plus =>
        simp only [htok] at h
        cases hpt : parseTerm f (consume .Plus "Expect '+'".toList s) with
        | error e => rw [hpt] at h; simp at h
        | ok v =>
          obtain ⟨r, s2⟩ := v
          rw [hpt] at h
          obtain ⟨hr1, hr2, -⟩ := ihT _ _ _ hpt
          have hacc1 : sumShape (ASTNode.BinaryExpr acc .Add r
              ⟨acc.position.start, r.position.stop⟩) = true := by
            simp [sumShape, hT, hr1]
          have hacc2 : spansOk (ASTNode.BinaryExpr acc .Add r
              ⟨acc.position.start, r.position.stop⟩) = true := by
            simp [spansOk, ASTNode.position, hS, hr2]
          obtain ⟨h1, h2, h3⟩ := ihSL _ _ _ _ hacc1 hacc2 h
          exact ⟨h1, h2, by rw [h3]; simp [ASTNode.position]⟩
      | Minus =>
        simp only [htok] at h
        cases hpt : parseTerm f (consume .Minus "Expect '-'".toList s) with
        | error e => rw [hpt] at h; simp at h
        | ok v =>
          obtain ⟨r, s2⟩ := v
          rw [hpt] at h
          obtain ⟨hr1, hr2, -⟩ := ihT _ _ _ hpt
          have hacc1 : sumShape (ASTNode.BinaryExpr acc .Subtract r
              ⟨acc.position.start, r.position.stop⟩) = true := by
            simp [sumShape, hT, hr1]
          have hacc2 : spansOk (ASTNode.BinaryExpr acc .Subtract r
              ⟨acc.position.start, r.position.stop⟩) = true := by
            simp [spansOk, ASTNode.position, hS, hr2]
          obtain ⟨h1, h2, h3⟩ := ihSL _ _ _ _ hacc1 hacc2 h
          exact ⟨h1, h2, by rw [h3]; simp [ASTNode.position]⟩
      | Star =>
        simp only [htok] at h
        simp only [Except.ok.injEq, Prod.mk.injEq] at h
        obtain ⟨hn, -⟩ := h; subst hn
        exact ⟨hT, hS, rfl⟩
      | Slash =>
        simp only [htok] at h
        simp only [Except.ok.injEq, Prod.mk.injEq] at h
        obtain ⟨hn, -⟩ := h; subst hn
        exact ⟨hT, hS, rfl⟩
      | LeftParen =>
        simp only [htok] at h
        simp only [Except.ok.injEq, Prod.mk.injEq] at h
        obtain ⟨hn, -⟩ := h; subst hn
        exact ⟨hT, hS, rfl⟩
      | RightParen =>
        simp only [htok] at h
        simp only [Except.ok.injEq, Prod.mk.injEq] at h
        obtain ⟨hn, -⟩ := h; subst hn
        exact ⟨hT, hS, rfl⟩
      | Number =>
        simp only [htok] at h
        simp only [Except.ok.injEq, Prod.mk.injEq] at h
        obtain ⟨hn, -⟩ := h; subst hn
        exact ⟨hT, hS, rfl⟩
      | Ident =>
        simp only [htok] at h
        simp only [Except.ok.injEq, Prod.mk.injEq] at h
        obtain ⟨hn, -⟩ := h; subst hn
        exact ⟨hT, hS, rfl⟩
      | True =>
        simp only [htok] at h
        simp only [Except.ok.injEq, Prod.mk.injEq] at h
        obtain ⟨hn, -⟩ := h; subst hn
        exact ⟨hT, hS, rfl⟩
      | False =>
        simp only [htok] at h
        simp only [Except.ok.injEq, Prod.mk.injEq] at h
        obtain ⟨hn, -⟩ := h; subst hn
        exact ⟨hT, hS, rfl⟩
      | Error =>
        simp only [htok] at h
        simp only [Except.ok.injEq, Prod.mk.injEq] at h
        obtain ⟨hn, -⟩ := h; subst hn
        exact ⟨hT, hS, rfl⟩
      | Eof =>
        simp only [htok] at h
        simp only [Except.ok.injEq, Prod.mk.injEq] at h
        obtain ⟨hn, -⟩ := h; subst hn
        exact ⟨hT, hS, rfl⟩
    · -- parseSum
      intro s n s' h
      simp only [parseSum] at h
      cases hpt : parseTerm f s with
      | error e => rw [hpt] at h; simp at h
      | ok v =>
        obtain ⟨n0, s1⟩ := v
        rw [hpt] at h
        obtain ⟨h1, h2, h3⟩ := ihT _ _ _ hpt
        obtain ⟨h4, h5, h6⟩ := ihSL _ _ _ _ (termShape_sumShape h1) h2 h
        exact ⟨h4, h5, by rw [h6, h3]⟩

theorem spansOk_binSpansOk {n : ASTNode} (h : spansOk n = true) :
    binSpansOk n = true := by
  induction n with
  | Literal l sp => simp [binSpansOk]
  | BinaryExpr l op r sp ihl ihr =>
    simp only [spansOk, Bool.and_eq_true] at h
    obtain ⟨⟨⟨h1, h2⟩, h3⟩, h4⟩ := h
    simp only [binSpansOk, Bool.and_eq_true]
    exact ⟨⟨⟨h1, h2⟩, ihl h3⟩, ihr h4⟩
  | UnaryExpr op a sp iha =>
    simp only [spansOk, Bool.and_eq_true] at h
    simpa only [binSpansOk] using iha h.2
  | ParenExpr e sp ihe =>
    simp only [spansOk, Bool.and_eq_true] at h
    simpa only [binSpansOk] using ihe h.2

theorem spansOk_parenSpansOk {n : ASTNode} (h : spansOk n = true) :
    parenSpansOk n = true := by
  induction n with
  | Literal l sp => simp [parenSpansOk]
  | BinaryExpr l op r sp ihl ihr =>
    simp only [spansOk, Bool.and_eq_true] at h
    obtain ⟨⟨⟨-, -⟩, h3⟩, h4⟩ := h
    simp only [parenSpansOk, Bool.and_eq_true]
    exact ⟨ihl h3, ihr h4⟩
  | UnaryExpr op a sp iha =>
    simp only [spansOk, Bool.and_eq_true] at h
    simpa only [parenSpansOk] using iha h.2
  | ParenExpr e sp ihe =>
    simp only [spansOk, Bool.and_eq_true] at h
    obtain ⟨h1, h2⟩ := h
    simp only [parenSpansOk, Bool.and_eq_true]
    exact ⟨h1, ihe h2⟩

/-- Any shape grade implies that every unary minus in the node wraps a
factor-shaped operand. -/
theorem shape_unaryFactorOk (n : ASTNode) :
    (factorShape n = true → unaryFactorOk n = true) ∧
    (termShape n = true → unaryFactorOk n = true) ∧
    (sumShape n = true → unaryFactorOk n = true) := by
  induction n with
  | Literal l sp => simp [factorShape, termShape, sumShape, unaryFactorOk]
  | BinaryExpr l op r sp ihl ihr =>
    refine ⟨?_, ?_, ?_⟩
    · intro h; simp [factorShape] at h
    · intro h
      simp only [termShape, Bool.and_eq_true] at h
      obtain ⟨⟨-, hl⟩, hr⟩ := h
      simp only [unaryFactorOk, Bool.and_eq_true]
      exact ⟨ihl.2.1 hl, ihr.1 hr⟩
    · intro h
      cases op with
      | Add =>
        simp only [sumShape] at h
        simp only [unaryFactorOk, Bool.and_eq_true]
        simp at h
        exact ⟨ihl.2.2 h.1, ihr.2.1 h.2⟩
      | Subtract =>
        simp only [sumShape] at h
        simp only [unaryFactorOk, Bool.and_eq_true]
        simp at h
        exact ⟨ihl.2.2 h.1, ihr.2.1 h.2⟩
      | Multiply =>
        simp only [sumShape] at h
        simp only [unaryFactorOk, Bool.and_eq_true]
        simp at h
        exact ⟨ihl.2.1 h.1, ihr.1 h.2⟩
      | Divide =>
        simp only [sumShape] at h
        simp only [unaryFactorOk, Bool.and_eq_true]
        simp at h
        exact ⟨ihl.2.1 h.1, ihr.1 h.2⟩
  | UnaryExpr op a sp iha =>
    refine ⟨?_, ?_, ?_⟩ <;> intro h <;>
      simp only [factorShape, termShape, sumShape] at h <;>
      simp only [unaryFactorOk, Bool.and_eq_true] <;>
      exact ⟨h, iha.1 h⟩
  | ParenExpr e sp ihe =>
    refine ⟨?_, ?_, ?_⟩ <;> intro h <;>
      simp only [factorShape, termShape, sumShape] at h <;>
      simpa only [unaryFactorOk] using ihe.2.2 h

/-- Every item of a successfully parsed AST is a shape-correct sum with
spec-§3 spans. -/
theorem parse_ok_inv {src : List Char} {ast : AST} (h : parse src = .ok ast) :
    ∀ n ∈ ast.items, sumShape n = true ∧ spansOk n = true := by
  simp only [parse] at h
  cases hps : parseSum (parseFuel src)
      ⟨(advanceLoop ⟨src, 0⟩).2, (advanceLoop ⟨src, 0⟩).1⟩ with
  | error e => rw [hps] at h; simp at h
  | ok v =>
    obtain ⟨n0, sEnd⟩ := v
    rw [hps] at h
    simp only [Except.ok.injEq] at h
    subst h
    intro n hn
    simp only [List.mem_singleton] at hn
    subst hn
    obtain ⟨h1, h2, -⟩ := (parserInv (parseFuel src)).2.2.2.2 _ _ _ hps
    exact ⟨h1, h2⟩

/-! ## Claim theorems -/

/-- C1 (counterexample): the source `e` + U+0301 COMBINING ACUTE ACCENT
is a single grapheme cluster (grapheme length 1), so under the claim
every span offset into it would be at most 1 and the glyph would occupy
exactly one span position.  Instead the scanner splits the glyph into
two tokens — `Ident "e"` with span `[0,1)` and an `Error` token with
span `[1,3)` — because it advances by single code points and indexes
spans by UTF-8 bytes (the combining mark is 2 bytes). -/
theorem scanner_span_not_grapheme_indexed :
    (scanToken ⟨['e', '́'], 0⟩).1 = ⟨.Ident, ['e'], ⟨0, 1⟩⟩ ∧
    (scanToken (scanToken ⟨['e', '́'], 0⟩).2).1.span = ⟨1, 3⟩ ∧
    ¬(3 ≤ 1) :=
  ⟨rfl, rfl, by decide⟩

/-- C1 (amended): for every input source, the scanner advances by whole
*code points* and every token's span start/end are *UTF-8 byte* offsets
into the source: each `scan_token` call splits off a whitespace prefix
and a lexeme, and the span's start and end and the scanner's cursor all
advance by exactly the UTF-8 byte length of the consumed code points
(so a multi-codepoint glyph occupies one span position per byte of each
of its code points, not one position total). -/
theorem scanner_advances_by_utf8_byte_offsets (s : ScanState) :
    ∃ ws lex, s.rest = ws ++ lex ++ (scanToken s).2.rest ∧
      (∀ c ∈ ws, isWhitespace c = true) ∧
      (scanToken s).1.span.start = s.pos + utf8Bytes ws ∧
      (scanToken s).1.span.stop = (scanToken s).1.span.start + utf8Bytes lex ∧
      (scanToken s).2.pos = (scanToken s).1.span.stop :=
  scanToken_spec s

/-- C2: parsing `"(1+2"`, whose expected closing `')'` is absent, does
NOT fail: `consume` only prints the "Expect ')' after grouping
expression." message and continues, and `parse` returns a successful
`ParenExpr` AST (its span `[0,5)` even exceeds the 4-code-point input).
The spec calls for a parse error here and marks the reference behavior
a defect (§7/§9), so the claim is right and the code is wrong. -/
theorem parse_missing_rparen_returns_ok :
    parse "(1+2".toList = .ok ⟨[.ParenExpr
      (.BinaryExpr (.Literal (.Number (.finite 1)) ⟨1, 2⟩) .Add
        (.Literal (.Number (.finite 2)) ⟨3, 4⟩) ⟨1, 4⟩) ⟨0, 5⟩]⟩ :=
  rfl

/-- C3 (counterexample): parsing `"(1 )"` yields a `ParenExpr` with span
`[0,3)`, but the closing parenthesis is the token `[3,4)`, so the node's
span does NOT end at the closing parenthesis's end (3 ≠ 4): the parser
uses `inner.stop + 1`, not the `')'` token's span. -/
theorem paren_span_misses_closing_paren :
    parse "(1 )".toList =
        .ok ⟨[.ParenExpr (.Literal (.Number (.finite 1)) ⟨1, 2⟩) ⟨0, 3⟩]⟩ ∧
    (scanToken (scanToken (scanToken ⟨"(1 )".toList, 0⟩).2).2).1 =
        ⟨.RightParen, [')'], ⟨3, 4⟩⟩ ∧
    (3 : Nat) ≠ 4 :=
  ⟨rfl, rfl, by decide⟩

/-- C3 (amended): every successfully parsed parenthesized expression
gets the span `[open_paren_start, span(inner).stop + 1)` — which equals
`close_paren_end` exactly when `')'` immediately follows the inner
expression, as in `"(1+2)"`, where the outer span is `[0,5)`, the inner
span is `[1,4)`, and the outer width equals the inner width plus 2. -/
theorem paren_span_open_to_inner_stop_succ :
    (∀ fuel (s : PState) n s', s.current.tokenType = .LeftParen →
      parseFactor (fuel + 1) s = .ok (n, s') →
      ∃ e, n = .ParenExpr e ⟨s.current.span.start, e.position.stop + 1⟩) ∧
    parse "(1+2)".toList = .ok ⟨[.ParenExpr
      (.BinaryExpr (.Literal (.Number (.finite 1)) ⟨1, 2⟩) .Add
        (.Literal (.Number (.finite 2)) ⟨3, 4⟩) ⟨1, 4⟩) ⟨0, 5⟩]⟩ ∧
    5 - 0 = (4 - 1) + 2 := by
  refine ⟨?_, rfl, rfl⟩
  intro fuel s n s' htok h
  simp only [parseFactor, htok] at h
  cases hps : parseSum fuel (consume .LeftParen "Expect '('.".toList s) with
  | error e => rw [hps] at h; simp at h
  | ok v =>
    obtain ⟨e, s2⟩ := v
    rw [hps] at h
    simp only [Except.ok.injEq, Prod.mk.injEq] at h
    exact ⟨e, h.1.symm⟩

/-- C3 witness: the amended span law instantiated on parsing `"(1)"`
from the state whose current token is the `'('` at `[0,1)`. -/
theorem paren_span_open_to_inner_stop_succ_witness :
    ∃ e, (ASTNode.ParenExpr (.Literal (.Number (.finite 1)) ⟨1, 2⟩) ⟨0, 3⟩ : ASTNode) =
      .ParenExpr e ⟨0, e.position.stop + 1⟩ :=
  paren_span_open_to_inner_stop_succ.1 5
    ⟨⟨['1', ')'], 1⟩, ⟨.LeftParen, ['('], ⟨0, 1⟩⟩⟩ _ _ rfl rfl

/-- C4: the parser groups every chain of `+`/`-` at sum level, and
independently every chain of `*`/`/` at term level, left-associatively:
in every successfully parsed AST, the right operand of a sum-level
`BinaryExpr` is term-shaped (never another bare `+`/`-` node) and the
right operand of a term-level `BinaryExpr` is factor-shaped (never a
bare binary node); concretely `"1 + 2 - 3"` parses as `((1 + 2) - 3)`. -/
theorem parse_left_associative :
    (∀ src ast, parse src = .ok ast → ∀ n ∈ ast.items, sumShape n = true) ∧
    parse "1 + 2 - 3".toList = .ok ⟨[.BinaryExpr
      (.BinaryExpr (.Literal (.Number (.finite 1)) ⟨0, 1⟩) .Add
        (.Literal (.Number (.finite 2)) ⟨4, 5⟩) ⟨0, 5⟩) .Subtract
      (.Literal (.Number (.finite 3)) ⟨8, 9⟩) ⟨0, 9⟩]⟩ :=
  ⟨fun _ _ h n hn => (parse_ok_inv h n hn).1, rfl⟩

/-- C4 witness: the left-associativity shape instantiated on the parse
of `"1 + 2 - 3"`. -/
theorem parse_left_associative_witness :
    sumShape (.BinaryExpr
      (.BinaryExpr (.Literal (.Number (.finite 1)) ⟨0, 1⟩) .Add
        (.Literal (.Number (.finite 2)) ⟨4, 5⟩) ⟨0, 5⟩) .Subtract
      (.Literal (.Number (.finite 3)) ⟨8, 9⟩) ⟨0, 9⟩) = true :=
  parse_left_associative.1 "1 + 2 - 3".toList _ rfl _ (List.mem_singleton.mpr rfl)

/-- C5: every `BinaryExpr` node the parser builds has span
`[span(left).start, span(right).stop)`; concretely `"1 + 23"` yields an
outer span `[0,6)` with left operand span `[0,1)` and right operand
span `[4,6)`. -/
theorem binary_expr_span_left_to_right :
    (∀ src ast, parse src = .ok ast → ∀ n ∈ ast.items, binSpansOk n = true) ∧
    parse "1 + 23".toList = .ok ⟨[.BinaryExpr
      (.Literal (.Number (.finite 1)) ⟨0, 1⟩) .Add
      (.Literal (.Number (.finite 23)) ⟨4, 6⟩) ⟨0, 6⟩]⟩ :=
  ⟨fun _ _ h n hn => spansOk_binSpansOk (parse_ok_inv h n hn).2, rfl⟩

/-- C5 witness: the binary-span law instantiated on the parse of
`"1 + 23"`. -/
theorem binary_expr_span_left_to_right_witness :
    binSpansOk (.BinaryExpr
      (.Literal (.Number (.finite 1)) ⟨0, 1⟩) .Add
      (.Literal (.Number (.finite 23)) ⟨4, 6⟩) ⟨0, 6⟩) = true :=
  binary_expr_span_left_to_right.1 "1 + 23".toList _ rfl _ (List.mem_singleton.mpr rfl)

/-- C6: unary minus binds at factor precedence: in every successfully
parsed AST, the operand of every `UnaryExpr` is factor-shaped (a
literal, parenthesized expression or nested unary — never a bare
binary expression); concretely `"-1 + 2"` parses as `((-1) + 2)`, never
`-(1 + 2)`. -/
theorem unary_minus_binds_at_factor :
    (∀ src ast, parse src = .ok ast → ∀ n ∈ ast.items, unaryFactorOk n = true) ∧
    parse "-1 + 2".toList = .ok ⟨[.BinaryExpr
      (.UnaryExpr .Subtract (.Literal (.Number (.finite 1)) ⟨1, 2⟩) ⟨0, 2⟩) .Add
      (.Literal (.Number (.finite 2)) ⟨5, 6⟩) ⟨0, 6⟩]⟩ :=
  ⟨fun _ _ h n hn => (shape_unaryFactorOk n).2.2 (parse_ok_inv h n hn).1, rfl⟩

/-- C6 witness: the unary-binds-at-factor law instantiated on the parse
of `"-1 + 2"`. -/
theorem unary_minus_binds_at_factor_witness :
    unaryFactorOk (.BinaryExpr
      (.UnaryExpr .Subtract (.Literal (.Number (.finite 1)) ⟨1, 2⟩) ⟨0, 2⟩) .Add
      (.Literal (.Number (.finite 2)) ⟨5, 6⟩) ⟨0, 6⟩) = true :=
  unary_minus_binds_at_factor.1 "-1 + 2".toList _ rfl _ (List.mem_singleton.mpr rfl)

/-- C7: whenever `parse_factor` is reached with a current token that is
none of NUMBER, TRUE, FALSE, `'('` or `'-'`, it immediately returns a
structured error whose message names the unexpected token, with no
partial AST; concretely `parse ")"` returns exactly that error. -/
theorem factor_unexpected_token_fatal :
    (∀ fuel (s : PState), s.current.tokenType ≠ .Number →
      s.current.tokenType ≠ .True → s.current.tokenType ≠ .False →
      s.current.tokenType ≠ .LeftParen → s.current.tokenType ≠ .Minus →
      parseFactor (fuel + 1) s = .error (.msg
        ("Error, unexpected token: '".toList ++ s.current.tokenType.display ++
          "'.".toList))) ∧
    parse ")".toList = .error (.msg "Error, unexpected token: ')'.".toList) := by
  refine ⟨?_, rfl⟩
  intro fuel s h1 h2 h3 h4 h5
  cases htok : s.current.tokenType with
  | Number => exact absurd htok h1
  | True => exact absurd htok h2
  | False => exact absurd htok h3
  | LeftParen => exact absurd htok h4
  | Minus => exact absurd htok h5
  | Plus => simp [parseFactor, htok]
  | Star => simp [parseFactor, htok]
  | Slash => simp [parseFactor, htok]
  | RightParen => simp [parseFactor, htok]
  | Ident => simp [parseFactor, htok]
  | Error => simp [parseFactor, htok]
  | Eof => simp [parseFactor, htok]

/-- C7 witness: the fatal-error law instantiated on a state whose
current token is the `')'` at `[0,1)`. -/
theorem factor_unexpected_token_fatal_witness :
    parseFactor 1 ⟨⟨[], 1⟩, ⟨.RightParen, [')'], ⟨0, 1⟩⟩⟩ =
      .error (.msg "Error, unexpected token: ')'.".toList) :=
  factor_unexpected_token_fatal.1 0 ⟨⟨[], 1⟩, ⟨.RightParen, [')'], ⟨0, 1⟩⟩⟩
    (by decide) (by decide) (by decide) (by decide) (by decide)

/-- C8: `+` on two `String` values appends the right buffer's text onto
the left buffer in place and returns a Value aliasing that same mutated
cell (so any other Value holding the same cell index observes the new
text); concretely `"a" + "b"` leaves `"ab"` in cell 0, which every
alias of cell 0 reads afterward; and on two `Number`s `+` returns their
sum. -/
theorem string_add_mutating_aliasing :
    (∀ (h : StrHeap) i j, i ≠ j →
      vadd (.String i) (.String j) h =
        .ok (.String i, h.set i (readStr h i ++ readStr h j))) ∧
    (vadd (.String 0) (.String 1) ["a".toList, "b".toList] =
        .ok (.String 0, ["ab".toList, "b".toList]) ∧
      readStr ["ab".toList, "b".toList] 0 = "ab".toList) ∧
    (∀ x y (h : StrHeap),
      vadd (.Number x) (.Number y) h = .ok (.Number (fpAdd x y), h)) := by
  refine ⟨?_, ⟨rfl, rfl⟩, fun x y h => rfl⟩
  intro h i j hij
  simp [vadd, hij]

/-- C8 witness: the mutating-append law instantiated on distinct cells
0 and 1 of the heap `["a", "b"]`. -/
theorem string_add_mutating_aliasing_witness :
    vadd (.String 0) (.String 1) ["a".toList, "b".toList] =
      .ok (.String 0, (["a".toList, "b".toList] : StrHeap).set 0
        (readStr ["a".toList, "b".toList] 0 ++ readStr ["a".toList, "b".toList] 1)) :=
  string_add_mutating_aliasing.1 ["a".toList, "b".toList] 0 1 (by decide)

/-- C9: binary `-`, `*`, `/` are total only over `(Number, Number)` and
unary `-` only over `Number`: every other operand pairing (including
`Number + Boolean` and `Number + String`) hits the fatal
`panic!("Operands must be numbers")` arm, never a coercion; and
dividing two Numbers by zero is NOT a distinct error — it follows
float semantics, yielding `inf`, `-inf` or `nan`. -/
theorem arith_operand_type_violations :
    (∀ a b, bothNumbers a b = false →
      vsub a b = .error "Operands must be numbers".toList ∧
      vmul a b = .error "Operands must be numbers".toList ∧
      vdiv a b = .error "Operands must be numbers".toList) ∧
    (∀ v, isNumber v = false →
      vneg v = .error "Operands must be numbers".toList) ∧
    (∀ x b (h : StrHeap),
      vadd (.Number x) (.Boolean b) h = .error "Operands must be numbers".toList) ∧
    (∀ x i (h : StrHeap),
      vadd (.Number x) (.String i) h = .error "Operands must be numbers".toList) ∧
    vdiv (.Number (.finite 1)) (.Number (.finite 0)) = .ok (.Number .inf) ∧
    vdiv (.Number (.finite (-1))) (.Number (.finite 0)) = .ok (.Number .neginf) ∧
    vdiv (.Number (.finite 0)) (.Number (.finite 0)) = .ok (.Number .nan) := by
  refine ⟨?_, ?_, fun x b h => rfl, fun x i h => rfl, rfl, rfl, rfl⟩
  · intro a b hab
    cases a <;> cases b <;> simp_all [bothNumbers, vsub, vmul, vdiv]
  · intro v hv
    cases v <;> simp_all [isNumber, vneg]

/-- C9 witness: the operand-type-violation law instantiated on the
non-Number pair `(Boolean true, Nil)`. -/
theorem arith_operand_type_violations_witness :
    vsub (.Boolean true) .Nil = .error "Operands must be numbers".toList ∧
    vmul (.Boolean true) .Nil = .error "Operands must be numbers".toList ∧
    vdiv (.Boolean true) .Nil = .error "Operands must be numbers".toList :=
  arith_operand_type_violations.1 (.Boolean true) .Nil rfl

/-- C10: `Parser::advance` silently discards every `Error` token the
scanner produces before installing the next current token, so an
unrecognized grapheme never reaches the parser: the installed token is
never an `Error` token, and `"1 猫 + 2"` parses successfully into the
same AST shape as `"1 + 2"`. -/
theorem parser_discards_error_tokens :
    (∀ s : ScanState, ((advanceLoop s).1.tokenType == TokenType.Error) = false) ∧
    (parse "1 猫 + 2".toList).map eraseAST = (parse "1 + 2".toList).map eraseAST ∧
    (parse "1 猫 + 2".toList).isOk = true := by
  refine ⟨?_, rfl, rfl⟩
  intro s
  exact beq_eq_false_iff_ne.mpr (advanceLoop_no_error s)

/-- C1 witness: the byte-advance law instantiated on the single-glyph
source `"猫"` (3 UTF-8 bytes). -/
theorem scanner_advances_by_utf8_byte_offsets_witness :
    ∃ ws lex, ("猫".toList : List Char) =
        ws ++ lex ++ (scanToken ⟨"猫".toList, 0⟩).2.rest ∧
      (∀ c ∈ ws, isWhitespace c = true) ∧
      (scanToken ⟨"猫".toList, 0⟩).1.span.start = 0 + utf8Bytes ws ∧
      (scanToken ⟨"猫".toList, 0⟩).1.span.stop =
        (scanToken ⟨"猫".toList, 0⟩).1.span.start + utf8Bytes lex ∧
      (scanToken ⟨"猫".toList, 0⟩).2.pos = (scanToken ⟨"猫".toList, 0⟩).1.span.stop :=
  scanner_advances_by_utf8_byte_offsets ⟨"猫".toList, 0⟩
